import Mathlib

/-!
Verification of the particle-identifier and isotope-catalog engine of
`plasmapy/atomic/atomic.py` against its natural-language specification.

Strings are embedded as `List Char` (so that Python substring / slicing
operations have direct executable counterparts).  The static reference
tables (`_Isotopes`, `_Elements`) and the external symbol resolver
(`atomic_symbol`) are parameters of the embedded functions; concrete
modelled instances are supplied for witnesses.
-/

/-- Characters of a string literal, the working representation of Python strings. -/
def chars (s : String) : List Char := s.data

/-- Python `str.lower` restricted to the ASCII data used by the source. -/
def lowerStr (s : List Char) : List Char := s.map Char.toLower

/-- Python `sub == s[0:len(sub)]`-style check: `pfx` is a prefix of `s`. -/
def isPfx : List Char → List Char → Bool
  | [], _ => true
  | _ :: _, [] => false
  | a :: as, b :: bs => decide (a = b) && isPfx as bs

/-- Python `sub in s` (substring containment). -/
def pyIn (sub : List Char) : List Char → Bool
  | [] => sub.isEmpty
  | c :: rest => isPfx sub (c :: rest) || pyIn sub rest

/-- Python `list.insert i a` (index clamped to the list length). -/
def pyInsert (i : Nat) (a : α) (l : List α) : List α :=
  l.take i ++ a :: l.drop i

/-- Numeric value of a list of decimal digit characters. -/
def digitsToNat (l : List Char) : Nat :=
  l.foldl (fun acc c => acc * 10 + (c.toNat - 48)) 0

/-- Python string comparison (lexicographic by code point), as `≤`. -/
def strLe : List Char → List Char → Bool
  | [], _ => true
  | _ :: _, [] => false
  | a :: as, b :: bs => if a = b then strLe as bs else decide (a < b)

/-- Comparison of Python pairs `(n, s)` of an integer and a string, as used by
`sorted(zip(...))` in the source: lexicographic on the pair. -/
def pLe (x y : Nat × List Char) : Prop :=
  x.1 < y.1 ∨ (x.1 = y.1 ∧ strLe x.2 y.2 = true)

instance : DecidableRel pLe := fun x y => by
  unfold pLe; exact inferInstance

theorem strLe_total (a b : List Char) : strLe a b = true ∨ strLe b a = true := by
  induction a generalizing b with
  | nil => exact Or.inl rfl
  | cons x xs ih =>
    cases b with
    | nil => exact Or.inr rfl
    | cons y ys =>
      by_cases hxy : x = y
      · subst hxy
        simpa [strLe] using ih ys
      · rcases lt_or_gt_of_ne hxy with h | h
        · exact Or.inl (by simp [strLe, hxy, h])
        · exact Or.inr (by simp [strLe, Ne.symm hxy, h])

theorem strLe_trans {a b c : List Char} (hab : strLe a b = true)
    (hbc : strLe b c = true) : strLe a c = true := by
  induction a generalizing b c with
  | nil => rfl
  | cons x xs ih =>
    cases b with
    | nil => simp [strLe] at hab
    | cons y ys =>
      cases c with
      | nil => simp [strLe] at hbc
      | cons z zs =>
        by_cases hxy : x = y <;> by_cases hyz : y = z
        · subst hxy; subst hyz
          simp only [strLe, if_pos rfl] at hab hbc ⊢
          exact ih hab hbc
        · subst hxy
          simp only [strLe, if_pos rfl] at hab
          simp only [strLe, if_neg hyz, decide_eq_true_eq] at hbc
          simp [strLe, hyz, hbc]
        · subst hyz
          simp only [strLe, if_neg hxy, decide_eq_true_eq] at hab
          simp [strLe, hxy, hab]
        · simp only [strLe, if_neg hxy, decide_eq_true_eq] at hab
          simp only [strLe, if_neg hyz, decide_eq_true_eq] at hbc
          have hxz : x < z := lt_trans hab hbc
          simp [strLe, ne_of_lt hxz, hxz]

instance : IsTotal (Nat × List Char) pLe where
  total x y := by
    rcases Nat.lt_trichotomy x.1 y.1 with h | h | h
    · exact Or.inl (Or.inl h)
    · rcases strLe_total x.2 y.2 with hs | hs
      · exact Or.inl (Or.inr ⟨h, hs⟩)
      · exact Or.inr (Or.inr ⟨h.symm, hs⟩)
    · exact Or.inr (Or.inl h)

instance : IsTrans (Nat × List Char) pLe where
  trans x y z hxy hyz := by
    rcases hxy with h1 | ⟨e1, s1⟩
    · rcases hyz with h2 | ⟨e2, _⟩
      · exact Or.inl (lt_trans h1 h2)
      · exact Or.inl (e2 ▸ h1)
    · rcases hyz with h2 | ⟨e2, s2⟩
      · exact Or.inl (e1 ▸ h2)
      · exact Or.inr ⟨e1.trans e2, strLe_trans s1 s2⟩

/-- A Python value that can be a string, an integer, or anything else
(`pobj` stands for arguments of any other type). -/
inductive PyVal where
  | pstr (s : List Char)
  | pint (z : Int)
  | pobj
deriving DecidableEq

/-- Record of the static isotope table `_Isotopes`: the optional
`isotopic_abundance` field (present only for naturally occurring isotopes,
value scaled to an integer) and the `is_stable` boolean. -/
structure IsotopeRecord where
  isotopic_abundance : Option Nat
  is_stable : Bool
deriving DecidableEq

/-- An isotope table: keys paired with records, in insertion order. -/
def IsoTable := List (List Char × IsotopeRecord)

/-- Record lookup in the isotope table (all keys reaching it are present). -/
def recOf (tbl : IsoTable) (k : List Char) : IsotopeRecord :=
  ((tbl.find? (fun e => e.1 = k)).map Prod.snd).getD ⟨none, false⟩

/-- Modelled from the spec: `_extract_integer_charge` lives in the external
`symbols` module, absent from the provided sources.  Grammar 1: split at the
last whitespace; the trailing token must be fully consumed as sign-digits or
digits-sign, otherwise the whole string is returned with no charge.
Grammar 2 (no whitespace): a maximal trailing run of identical `+` or `-`
characters gives the magnitude and sign; mixed trailing signs are a parse
failure returning the input unchanged with no charge. -/
def parseChargeTok (tok : List Char) : Option Int :=
  match tok with
  | '+' :: ds =>
    if ds ≠ [] ∧ ds.all Char.isDigit then some (digitsToNat ds) else none
  | '-' :: ds =>
    if ds ≠ [] ∧ ds.all Char.isDigit then some (-(digitsToNat ds : Int)) else none
  | _ =>
    match tok.reverse with
    | '+' :: dsR =>
      if dsR ≠ [] ∧ dsR.all Char.isDigit then some (digitsToNat dsR.reverse) else none
    | '-' :: dsR =>
      if dsR ≠ [] ∧ dsR.all Char.isDigit then
        some (-(digitsToNat dsR.reverse : Int))
      else none
    | _ => none

/-- Modelled from the spec: whether a string ends in a `+` or `-` character. -/
def endsInSign (s : List Char) : Bool :=
  match s.reverse with
  | c :: _ => decide (c = '+') || decide (c = '-')
  | [] => false

/-- Modelled from the spec: the Charge Extractor `_extract_integer_charge`
(see `parseChargeTok` for the grammar). -/
def extract_integer_charge (s : List Char) : List Char × Option Int :=
  let r := s.reverse
  let tokR := r.takeWhile (fun c => !decide (c = ' '))
  let restR := r.dropWhile (fun c => !decide (c = ' '))
  if restR = [] then
    let plusRun := r.takeWhile (fun c => decide (c = '+'))
    let minusRun := r.takeWhile (fun c => decide (c = '-'))
    if plusRun ≠ [] then
      let body := (r.drop plusRun.length).reverse
      if endsInSign body then (s, none) else (body, some (plusRun.length : Int))
    else if minusRun ≠ [] then
      let body := (r.drop minusRun.length).reverse
      if endsInSign body then (s, none)
      else (body, some (-(minusRun.length : Int)))
    else (s, none)
  else
    match parseChargeTok tokR.reverse with
    | some z => (restR.tail.reverse, some z)
    | none => (s, none)

/-- Modelled from the spec: `mass_number` resolves through the external
`Particle` class, absent from the provided sources.  For a canonical isotope
key the mass number is the digits after the first dash; the light-hydrogen
aliases have mass numbers D ↦ 2 and T ↦ 3. -/
def massNumberKey (iso : List Char) : Nat :=
  if iso = chars "D" then 2
  else if iso = chars "T" then 3
  else digitsToNat ((iso.dropWhile (fun c => !decide (c = '-'))).tail)

/-- The scan-and-filter selection of `known_isotopes_for_element`:
Python `element + '-' in isotope and isotope[0:len(element)] == element`. -/
def selCond (element iso : List Char) : Bool :=
  pyIn (element ++ ['-']) iso && isPfx element iso

/-- The Python idiom `[x for (k, x) in sorted(zip(l.map f, l))]`: pair each
key with its rank, sort the pairs lexicographically, return the keys. -/
def rankKeys (f : List Char → Nat) (l : List (List Char)) : List (List Char) :=
  (((l.map f).zip l).insertionSort pLe).map Prod.snd

/-- Body of `known_isotopes_for_element` once the element symbol is resolved:
scan the isotope table's keys, insert `D`/`T` for hydrogen, and sort by the
`(mass_number, isotope)` pairs as Python `sorted(zip(...))` does. -/
def buildKnown (tbl : IsoTable) (element : List Char) : List (List Char) :=
  let isotopes := (tbl.map Prod.fst).filter (fun iso => selCond element iso)
  let isotopes :=
    if element = chars "H" then pyInsert 2 (chars "T") (pyInsert 1 (chars "D") isotopes)
    else isotopes
  rankKeys massNumberKey isotopes

/-- Inner helper `known_isotopes_for_element` of `known_isotopes`: resolves
the argument with the external symbol resolver `asym` (`none` models the
resolver raising) and builds the catalog. -/
def known_isotopes_for_element (tbl : IsoTable) (asym : PyVal → Option (List Char))
    (argument : PyVal) : Option (List (List Char)) :=
  (asym argument).map (fun element => buildKnown tbl element)

/-- Sequence a list of optional per-element catalogs: the global loop over
atomic numbers aborts (an exception propagates) if any element fails. -/
def optJoin : List (Option (List α)) → Option (List α)
  | [] => some []
  | o :: os =>
    match o, optJoin os with
    | some l, some ls => some (l ++ ls)
    | _, _ => none

/-- The public `known_isotopes`: with an argument, resolve it and delegate to
the per-element helper; with no argument (`none`), concatenate the
per-element catalogs for atomic numbers 1..118. -/
def known_isotopes (tbl : IsoTable) (asym : PyVal → Option (List Char)) :
    Option PyVal → Option (List (List Char))
  | some argument =>
    (asym argument).bind (fun element =>
      known_isotopes_for_element tbl asym (.pstr element))
  | none =>
    optJoin ((List.range' 1 118).map
      (fun z => known_isotopes_for_element tbl asym (.pint (Int.ofNat z))))

/-- Abundance value read from an isotope's record (`0` stands for an absent
field and is never read for a retained isotope). -/
def abundOf (tbl : IsoTable) (iso : List Char) : Nat :=
  (recOf tbl iso).isotopic_abundance.getD 0

/-- Inner helper `common_isotopes_for_element`: filter the known catalog to
isotopes whose record has an `isotopic_abundance` field, sort ascending on
the `(abundance, isotope)` pairs, reverse, and optionally truncate to the
single most common isotope. -/
def common_isotopes_for_element (tbl : IsoTable) (asym : PyVal → Option (List Char))
    (argument : PyVal) (most_common_only : Bool) : Option (List (List Char)) :=
  (known_isotopes tbl asym (some argument)).map (fun isotopes =>
    let CommonIsotopes :=
      isotopes.filter (fun iso => (recOf tbl iso).isotopic_abundance.isSome)
    let sorted_isotopes := (rankKeys (abundOf tbl) CommonIsotopes).reverse
    if most_common_only && decide (sorted_isotopes.length > 1) then
      sorted_isotopes.take 1
    else sorted_isotopes)

/-- The public `common_isotopes`, mirroring `known_isotopes`'s two paths. -/
def common_isotopes (tbl : IsoTable) (asym : PyVal → Option (List Char))
    (argOpt : Option PyVal) (most_common_only : Bool) : Option (List (List Char)) :=
  match argOpt with
  | some argument =>
    (asym argument).bind (fun element =>
      common_isotopes_for_element tbl asym (.pstr element) most_common_only)
  | none =>
    optJoin ((List.range' 1 118).map
      (fun z => common_isotopes_for_element tbl asym (.pint (Int.ofNat z)) most_common_only))

/-- Inner helper `stable_isotopes_for_element`: filter the known catalog by
the `is_stable` boolean, order inherited from the catalog. -/
def stable_isotopes_for_element (tbl : IsoTable) (asym : PyVal → Option (List Char))
    (argument : PyVal) (stable_only : Bool) : Option (List (List Char)) :=
  (known_isotopes tbl asym (some argument)).map (fun KnownIsotopes =>
    KnownIsotopes.filter (fun iso => (recOf tbl iso).is_stable = stable_only))

/-- The public `stable_isotopes`: the requested polarity is `not unstable`. -/
def stable_isotopes (tbl : IsoTable) (asym : PyVal → Option (List Char))
    (argOpt : Option PyVal) (unstable : Bool) : Option (List (List Char)) :=
  match argOpt with
  | some argument =>
    (asym argument).bind (fun element =>
      stable_isotopes_for_element tbl asym (.pstr element) (!unstable))
  | none =>
    optJoin ((List.range' 1 118).map
      (fun z => stable_isotopes_for_element tbl asym (.pint (Int.ofNat z)) (!unstable)))

/-- Hydrogen aliases matched case-sensitively: the base list plus the
mass-suffixed forms `H-1`..`H-7`. -/
def hydrogenCS : List (List Char) :=
  [chars "p", chars "p+", chars "H", chars "D", chars "T"] ++
    (List.range' 1 7).map (fun m => chars "H-" ++ (toString m).data)

/-- Hydrogen aliases matched case-insensitively, plus `hydrogen-1`..`hydrogen-7`. -/
def hydrogenCI : List (List Char) :=
  [chars "proton", chars "protium", chars "deuterium", chars "deuteron",
    chars "triton", chars "tritium", chars "hydrogen"] ++
    (List.range' 1 7).map (fun m => chars "hydrogen-" ++ (toString m).data)

/-- Whether a charge-stripped body matches a hydrogen alias. -/
def hydrogenAlias (body : List Char) : Bool :=
  decide (body ∈ hydrogenCS) || decide (lowerStr body ∈ hydrogenCI)

/-- The deprecated recognizer `_is_hydrogen`: `.error ()` models raising
`InvalidParticleError` for a hydrogen match with charge above 1. -/
def is_hydrogen (arg : PyVal) (can_be_atomic_number : Bool) : Except Unit Bool :=
  match arg with
  | .pstr s =>
    let body := (extract_integer_charge s).1
    let Z := (extract_integer_charge s).2
    let isH := hydrogenAlias body
    if isH && (match Z with | some z => decide (z > 1) | none => false) then .error ()
    else .ok isH
  | .pint z => .ok (decide (z = 1) && can_be_atomic_number)
  | .pobj => .ok false

/-- The deprecated recognizer `_is_proton`, parameterized by the external
resolver `isotope_symbol` (`none` models it raising).  The extractor is
applied to the raw argument; non-strings carry no embedded charge. -/
def extractOfVal (arg : PyVal) : Option Int :=
  match arg with
  | .pstr s => (extract_integer_charge s).2
  | _ => none

def is_proton (isoSym : PyVal → Option Nat → Option (List Char))
    (arg : PyVal) (Z : Option Int) (mass_numb : Option Nat) : Bool :=
  let Z_from_arg := extractOfVal arg
  if Z.isNone = Z_from_arg.isNone then false
  else
    let Zeff : Int := match Z with | some z => z | none => Z_from_arg.getD 0
    match isoSym arg mass_numb with
    | none => false
    | some isotope => decide (isotope = chars "H-1") && decide (Zeff = 1)

/-- The deprecated recognizer `_is_alpha`: `.error ()` models raising
`InvalidParticleError` on an alpha-like near-miss. -/
def is_alpha (arg : PyVal) : Except Unit Bool :=
  match arg with
  | .pstr s =>
    if lowerStr s = chars "alpha" then .ok true
    else if pyIn (chars "alpha") (lowerStr s) then .error ()
    else
      let body := (extract_integer_charge s).1
      let Z := (extract_integer_charge s).2
      if Z ≠ some 2 ∨ body.drop (body.length - 2) ≠ chars "-4" then .ok false
      else
        let pre := body.takeWhile (fun c => !decide (c = '-'))
        .ok (decide (lowerStr pre = chars "helium") || decide (pre = chars "He"))
  | _ => .ok false

/-- Record of the static element table `_Elements` (the fields the
periodic-placement lookups read). -/
structure ElementRecord where
  period : Nat
  group : Nat
  block : List Char
  category : List Char
deriving DecidableEq

/-- An element table: canonical symbols paired with records. -/
def ElemTable := List (List Char × ElementRecord)

/-- Record lookup in the element table. -/
def elemRecOf (tbl : ElemTable) (k : List Char) : ElementRecord :=
  ((tbl.find? (fun e => e.1 = k)).map Prod.snd).getD ⟨0, 0, [], []⟩

/-- Failure kinds of the periodic-placement lookups. -/
inductive PTErr where
  | typeErr
  | invalidParticle
deriving DecidableEq

/-- `periodic_table_period`: the type check precedes symbol resolution. -/
def periodic_table_period (elems : ElemTable) (asym : PyVal → Option (List Char))
    (argument : PyVal) : Except PTErr Nat :=
  match argument with
  | .pobj => .error .typeErr
  | arg =>
    match asym arg with
    | none => .error .invalidParticle
    | some symbol => .ok (elemRecOf elems symbol).period

/-- `periodic_table_group`, same shape as `periodic_table_period`. -/
def periodic_table_group (elems : ElemTable) (asym : PyVal → Option (List Char))
    (argument : PyVal) : Except PTErr Nat :=
  match argument with
  | .pobj => .error .typeErr
  | arg =>
    match asym arg with
    | none => .error .invalidParticle
    | some symbol => .ok (elemRecOf elems symbol).group

/-- `periodic_table_block`, same shape as `periodic_table_period`. -/
def periodic_table_block (elems : ElemTable) (asym : PyVal → Option (List Char))
    (argument : PyVal) : Except PTErr (List Char) :=
  match argument with
  | .pobj => .error .typeErr
  | arg =>
    match asym arg with
    | none => .error .invalidParticle
    | some symbol => .ok (elemRecOf elems symbol).block

/-- `periodic_table_category`, same shape as `periodic_table_period`. -/
def periodic_table_category (elems : ElemTable) (asym : PyVal → Option (List Char))
    (argument : PyVal) : Except PTErr (List Char) :=
  match argument with
  | .pobj => .error .typeErr
  | arg =>
    match asym arg with
    | none => .error .invalidParticle
    | some symbol => .ok (elemRecOf elems symbol).category

/-- Modelled from the spec: a fragment of the static isotope table
`_Isotopes` (the `isotopes` module is absent from the provided sources).
Keys are canonical `Symbol-MassNumber` strings with the light-hydrogen
aliases `D`/`T` stored as distinct keys; abundances are scaled to parts per
million; `is_stable` is the stability boolean. -/
def tblModel : IsoTable :=
  [(chars "H-1", ⟨some 999885, true⟩),
   (chars "D", ⟨some 115, true⟩),
   (chars "T", ⟨none, false⟩),
   (chars "H-4", ⟨none, false⟩),
   (chars "H-5", ⟨none, false⟩),
   (chars "H-6", ⟨none, false⟩),
   (chars "H-7", ⟨none, false⟩),
   (chars "He-3", ⟨some 2, true⟩),
   (chars "He-4", ⟨some 999998, true⟩),
   (chars "He-5", ⟨none, false⟩),
   (chars "Fe-54", ⟨some 58450, true⟩),
   (chars "Fe-55", ⟨none, false⟩),
   (chars "Fe-56", ⟨some 917540, true⟩),
   (chars "Fe-57", ⟨some 21190, true⟩),
   (chars "Fe-58", ⟨some 2820, true⟩),
   (chars "Og-294", ⟨none, false⟩)]

/-- Modelled from the spec: the 118 canonical element symbols in atomic-number
order, backing the external symbol resolver `atomic_symbol`. -/
def elementSymbols : List String :=
  ["H", "He", "Li", "Be", "B", "C", "N", "O", "F", "Ne",
   "Na", "Mg", "Al", "Si", "P", "S", "Cl", "Ar", "K", "Ca",
   "Sc", "Ti", "V", "Cr", "Mn", "Fe", "Co", "Ni", "Cu", "Zn",
   "Ga", "Ge", "As", "Se", "Br", "Kr", "Rb", "Sr", "Y", "Zr",
   "Nb", "Mo", "Tc", "Ru", "Rh", "Pd", "Ag", "Cd", "In", "Sn",
   "Sb", "Te", "I", "Xe", "Cs", "Ba", "La", "Ce", "Pr", "Nd",
   "Pm", "Sm", "Eu", "Gd", "Tb", "Dy", "Ho", "Er", "Tm", "Yb",
   "Lu", "Hf", "Ta", "W", "Re", "Os", "Ir", "Pt", "Au", "Hg",
   "Tl", "Pb", "Bi", "Po", "At", "Rn", "Fr", "Ra", "Ac", "Th",
   "Pa", "U", "Np", "Pu", "Am", "Cm", "Bk", "Cf", "Es", "Fm",
   "Md", "No", "Lr", "Rf", "Db", "Sg", "Bh", "Hs", "Mt", "Ds",
   "Rg", "Cn", "Nh", "Fl", "Mc", "Lv", "Ts", "Og"]

/-- Modelled from the spec: the external resolver `atomic_symbol`, restricted
to canonical inputs — an integer 1..118 resolves to the element's symbol and
a canonical symbol resolves to itself; anything else fails. -/
def asymModel (v : PyVal) : Option (List Char) :=
  match v with
  | .pint z =>
    if 1 ≤ z ∧ z ≤ 118 then some (chars (elementSymbols.getD (z.toNat - 1) ""))
    else none
  | .pstr s => if elementSymbols.any (fun e => chars e = s) then some s else none
  | .pobj => none

/-- Modelled from the spec: a fragment of the static element table
`_Elements` with the periodic-placement fields. -/
def elemsModel : ElemTable :=
  [(chars "Al", ⟨3, 13, chars "p", chars "Post-transition metals"⟩),
   (chars "Fe", ⟨4, 8, chars "d", chars "Transition metals"⟩),
   (chars "Au", ⟨6, 11, chars "d", chars "Transition metals"⟩),
   (chars "Tl", ⟨6, 13, chars "p", chars "Post-transition metals"⟩)]

/-- The full hydrogen catalog expected by the spec. -/
def hydrogenKnown : List (List Char) :=
  [chars "H-1", chars "D", chars "T", chars "H-4", chars "H-5",
   chars "H-6", chars "H-7"]

/-- A two-isotope table whose entries have equal abundances, exercising the
tie-break of the abundance ranking. -/
def tblTie : IsoTable :=
  [(chars "He-3", ⟨some 500000, true⟩),
   (chars "He-4", ⟨some 500000, true⟩)]

/-- ASCII uppercase letter (the well-formedness side conditions of the
catalog-selection analysis). -/
def isUpperCh (c : Char) : Bool := decide ('A' ≤ c ∧ c ≤ 'Z')

/-- ASCII lowercase letter. -/
def isLowerCh (c : Char) : Bool := decide ('a' ≤ c ∧ c ≤ 'z')

/-- ASCII decimal digit. -/
def isDigitCh (c : Char) : Bool := decide ('0' ≤ c ∧ c ≤ '9')

/-- Shape of a canonical element symbol: one uppercase letter optionally
followed by one lowercase letter. -/
def isValidSymbol : List Char → Bool
  | [c] => isUpperCh c
  | [c1, c2] => isUpperCh c1 && isLowerCh c2
  | _ => false

example : pyIn (chars "H-") (chars "He-4") = false := by decide
example : pyIn (chars "H-") (chars "H-4") = true := by decide
example : extract_integer_charge (chars "Fe-56 2+") = (chars "Fe-56", some 2) := by decide
example : extract_integer_charge (chars "He -2") = (chars "He", some (-2)) := by decide
example : extract_integer_charge (chars "N-14++") = (chars "N-14", some 2) := by decide
example : extract_integer_charge (chars "H+") = (chars "H", some 1) := by decide
example : massNumberKey (chars "Fe-56") = 56 := by decide

theorem zip_map_self (f : α → β) (l : List α) :
    (l.map f).zip l = l.map (fun a => (f a, a)) := by
  induction l with
  | nil => rfl
  | cons a as ih => simp [ih]

theorem map_snd_pair (f : α → β) (l : List α) :
    (l.map (fun a => (f a, a))).map Prod.snd = l := by
  induction l with
  | nil => rfl
  | cons a as ih => simp [ih]

theorem rankKeys_perm (f : List Char → Nat) (l : List (List Char)) :
    (rankKeys f l).Perm l := by
  unfold rankKeys
  rw [zip_map_self]
  have h2 := (List.perm_insertionSort pLe (l.map (fun a => (f a, a)))).map Prod.snd
  rw [map_snd_pair] at h2
  exact h2

theorem rankKeys_pairwise (f : List Char → Nat) (l : List (List Char)) :
    (rankKeys f l).Pairwise (fun a b => pLe (f a, a) (f b, b)) := by
  unfold rankKeys
  have hs : List.Sorted pLe (((l.map f).zip l).insertionSort pLe) :=
    List.sorted_insertionSort pLe _
  have hshape : ∀ p ∈ ((l.map f).zip l).insertionSort pLe, p = (f p.2, p.2) := by
    intro p hp
    rw [List.mem_insertionSort, zip_map_self, List.mem_map] at hp
    obtain ⟨a, _, rfl⟩ := hp
    rfl
  rw [List.pairwise_map]
  refine List.Pairwise.imp_of_mem ?_ hs
  intro p q hp hq hpq
  rw [← hshape p hp, ← hshape q hq]
  exact hpq

theorem rankKeys_strict (f : List Char → Nat) (l : List (List Char))
    (h : ((rankKeys f l).map f).Nodup) :
    (rankKeys f l).Pairwise (fun a b => f a < f b) := by
  have hp := rankKeys_pairwise f l
  have hne : (rankKeys f l).Pairwise (fun a b => f a ≠ f b) :=
    List.pairwise_map.mp h
  refine (hp.and hne).imp ?_
  rintro a b ⟨hle, hneq⟩
  rcases hle with hlt | ⟨heq, _⟩
  · exact hlt
  · exact absurd heq hneq

theorem rankKeys_rev_pairwise (f : List Char → Nat) (l : List (List Char)) :
    (rankKeys f l).reverse.Pairwise (fun a b => pLe (f b, b) (f a, a)) :=
  List.pairwise_reverse.mpr (rankKeys_pairwise f l)

theorem upper_not_lower {c : Char} (hu : isUpperCh c = true)
    (hl : isLowerCh c = true) : False := by
  simp only [isUpperCh, isLowerCh, decide_eq_true_eq] at hu hl
  exact absurd (le_trans hl.1 hu.2) (by decide)

theorem digit_not_upper {c : Char} (hd : isDigitCh c = true)
    (hu : isUpperCh c = true) : False := by
  simp only [isDigitCh, isUpperCh, decide_eq_true_eq] at hd hu
  exact absurd (le_trans hu.1 hd.2) (by decide)

theorem upper_ne_dash {c : Char} (hu : isUpperCh c = true) : c ≠ '-' := by
  intro h
  subst h
  exact absurd hu (by decide)

theorem lower_ne_dash {c : Char} (hl : isLowerCh c = true) : c ≠ '-' := by
  intro h
  subst h
  exact absurd hl (by decide)

theorem pyIn_head_mem {c : Char} {r t : List Char}
    (h : pyIn (c :: r) t = true) : c ∈ t := by
  induction t with
  | nil => simp [pyIn, List.isEmpty] at h
  | cons x xs ih =>
    rw [pyIn, Bool.or_eq_true] at h
    rcases h with h | h
    · rw [isPfx, Bool.and_eq_true, decide_eq_true_eq] at h
      exact h.1 ▸ List.mem_cons_self x xs
    · exact List.mem_cons_of_mem x (ih h)

theorem pyIn_of_isPfx {sub t : List Char} (h : isPfx sub t = true) :
    pyIn sub t = true := by
  cases t with
  | nil =>
    cases sub with
    | nil => rfl
    | cons a as => simp [isPfx] at h
  | cons x xs => simp [pyIn, h]

theorem isPfx_self_append (s extra : List Char) : isPfx s (s ++ extra) = true := by
  induction s with
  | nil => rfl
  | cons a as ih => simp [isPfx, ih]

theorem validSymbol_shape {l : List Char} (h : isValidSymbol l = true) :
    (∃ c, l = [c] ∧ isUpperCh c = true) ∨
    (∃ c1 c2, l = [c1, c2] ∧ isUpperCh c1 = true ∧ isLowerCh c2 = true) := by
  match l with
  | [c] => exact Or.inl ⟨c, rfl, h⟩
  | [c1, c2] =>
    rw [isValidSymbol, Bool.and_eq_true] at h
    exact Or.inr ⟨c1, c2, rfl, h.1, h.2⟩
  | [] => simp [isValidSymbol] at h
  | _ :: _ :: _ :: _ => simp [isValidSymbol] at h

/-- C3: the catalog builder's selection test (`element + '-' in key` together
with `key[0:len(element)] == element`) holds for a well-formed isotope key
`s ++ "-" ++ m` exactly when the element equals the key's symbol `s`; no key
of another element is ever selected. -/
theorem C3_selection :
    ∀ element s m : List Char, isValidSymbol element = true →
      isValidSymbol s = true → m ≠ [] → m.all isDigitCh = true →
      (selCond element (s ++ '-' :: m) = true ↔ element = s) := by
  intro element s m hE hS _ hdig
  have hdig' : ∀ x ∈ m, isDigitCh x = true := List.all_eq_true.mp hdig
  rcases validSymbol_shape hE with ⟨c, rfl, hc⟩ | ⟨c1, c2, rfl, hc1, hc2⟩ <;>
    rcases validSymbol_shape hS with ⟨d, rfl, hd⟩ | ⟨d1, d2, rfl, hd1, hd2⟩
  · -- element = [c], s = [d]
    constructor
    · intro h
      rw [selCond, Bool.and_eq_true] at h
      have hp := h.2
      simp only [List.cons_append, List.nil_append] at hp
      rw [isPfx, Bool.and_eq_true, decide_eq_true_eq] at hp
      rw [hp.1]
    · intro h
      injection h with h1 _
      subst h1
      rw [selCond, Bool.and_eq_true]
      simp only [List.cons_append, List.nil_append]
      refine ⟨?_, ?_⟩
      · exact pyIn_of_isPfx (by simpa using isPfx_self_append [c, '-'] m)
      · simp [isPfx]
  · -- element = [c], s = [d1, d2]: selection must fail
    constructor
    · intro h
      exfalso
      rw [selCond, Bool.and_eq_true] at h
      have hin := h.1
      simp only [List.cons_append, List.nil_append] at hin
      rw [pyIn, Bool.or_eq_true] at hin
      rcases hin with hin | hin
      · rw [isPfx, Bool.and_eq_true, isPfx, Bool.and_eq_true,
          decide_eq_true_eq, decide_eq_true_eq] at hin
        exact lower_ne_dash hd2 hin.2.1.symm
      · rw [pyIn, Bool.or_eq_true] at hin
        rcases hin with hin | hin
        · rw [isPfx, Bool.and_eq_true, decide_eq_true_eq] at hin
          exact upper_not_lower (hin.1 ▸ hc) hd2
        · rw [pyIn, Bool.or_eq_true] at hin
          rcases hin with hin | hin
          · rw [isPfx, Bool.and_eq_true, decide_eq_true_eq] at hin
            exact upper_ne_dash hc hin.1
          · exact digit_not_upper (hdig' c (pyIn_head_mem hin)) hc
    · intro h
      cases h
  · -- element = [c1, c2], s = [d]: the prefix test forces c2 = '-'
    constructor
    · intro h
      exfalso
      rw [selCond, Bool.and_eq_true] at h
      have hp := h.2
      simp only [List.cons_append, List.nil_append] at hp
      rw [isPfx, Bool.and_eq_true, isPfx, Bool.and_eq_true,
        decide_eq_true_eq, decide_eq_true_eq] at hp
      exact lower_ne_dash hc2 hp.2.1
    · intro h
      cases h
  · -- element = [c1, c2], s = [d1, d2]
    constructor
    · intro h
      rw [selCond, Bool.and_eq_true] at h
      have hp := h.2
      simp only [List.cons_append, List.nil_append] at hp
      rw [isPfx, Bool.and_eq_true, isPfx, Bool.and_eq_true,
        decide_eq_true_eq, decide_eq_true_eq] at hp
      rw [hp.1, hp.2.1]
    · intro h
      injection h with h1 h'
      injection h' with h2 _
      subst h1
      subst h2
      rw [selCond, Bool.and_eq_true]
      simp only [List.cons_append, List.nil_append]
      refine ⟨?_, ?_⟩
      · exact pyIn_of_isPfx (by simpa using isPfx_self_append [c1, c2, '-'] m)
      · simp [isPfx]

/-- Witness for C3: an `He` key is never selected when listing `H`, and is
selected when listing `He`. -/
theorem C3_witness :
    (selCond (chars "H") (chars "He" ++ '-' :: chars "4") = true ↔
      chars "H" = chars "He") ∧
    (selCond (chars "He") (chars "He" ++ '-' :: chars "4") = true ↔
      chars "He" = chars "He") :=
  ⟨C3_selection (chars "H") (chars "He") (chars "4") (by decide) (by decide)
      (by decide) (by decide),
    C3_selection (chars "He") (chars "He") (chars "4") (by decide) (by decide)
      (by decide) (by decide)⟩

theorem isPfx_refl (l : List Char) : isPfx l l = true := by
  simpa using isPfx_self_append l []

theorem pyIn_refl (l : List Char) : pyIn l l = true :=
  pyIn_of_isPfx (isPfx_refl l)

/-- C4: the alpha recognizer returns a match on any exact case-insensitive
`"alpha"`; raises (never a plain non-match) on any other string containing
the substring `"alpha"`; and on all remaining strings never raises, matching
exactly when the extracted charge is `+2` and the charge-stripped body ends
in `-4` on a helium symbol or name. -/
theorem C4_alpha :
    ∀ s : List Char,
      (lowerStr s = chars "alpha" → is_alpha (.pstr s) = .ok true) ∧
      (lowerStr s ≠ chars "alpha" → pyIn (chars "alpha") (lowerStr s) = true →
        is_alpha (.pstr s) = .error ()) ∧
      (pyIn (chars "alpha") (lowerStr s) = false →
        (∀ e : Unit, is_alpha (.pstr s) ≠ .error e) ∧
        (is_alpha (.pstr s) = .ok true ↔
          (extract_integer_charge s).2 = some 2 ∧
          (extract_integer_charge s).1.drop
              ((extract_integer_charge s).1.length - 2) = chars "-4" ∧
          (lowerStr ((extract_integer_charge s).1.takeWhile
              (fun c => !decide (c = '-'))) = chars "helium" ∨
            (extract_integer_charge s).1.takeWhile
              (fun c => !decide (c = '-')) = chars "He"))) := by
  intro s
  refine ⟨?_, ?_, ?_⟩
  · intro h
    simp [is_alpha, h]
  · intro h1 h2
    simp [is_alpha, h1, h2]
  · intro hn
    have h1 : lowerStr s ≠ chars "alpha" := by
      intro he
      rw [he] at hn
      exact absurd (pyIn_refl (chars "alpha")) (by simp [hn])
    have hn' : ¬ pyIn (chars "alpha") (lowerStr s) = true := by simp [hn]
    constructor
    · intro e
      simp only [is_alpha, if_neg h1, if_neg hn']
      split
      · simp
      · simp
    · simp only [is_alpha, if_neg h1, if_neg hn']
      by_cases hC : (extract_integer_charge s).2 ≠ some 2 ∨
          (extract_integer_charge s).1.drop
            ((extract_integer_charge s).1.length - 2) ≠ chars "-4"
      · rw [if_pos hC]
        simp only [Except.ok.injEq, Bool.false_eq_true, false_iff]
        rintro ⟨hz, hd, _⟩
        rcases hC with hC | hC
        · exact hC hz
        · exact hC hd
      · rw [if_neg hC]
        push_neg at hC
        simp only [Except.ok.injEq, Bool.or_eq_true, decide_eq_true_eq]
        constructor
        · intro h
          exact ⟨hC.1, hC.2, h⟩
        · intro h
          exact h.2.2

/-- Witness for C4: an alpha-like near-miss raises an invalid-particle
error. -/
theorem C4_witness : is_alpha (.pstr (chars "alpha-particle")) = .error () :=
  (C4_alpha (chars "alpha-particle")).2.1 (by decide) (by decide)

/-- C5: the hydrogen recognizer raises exactly when the charge-stripped body
matches a hydrogen alias and the extracted charge exceeds 1; non-matching
bodies and non-string arguments never raise, whatever their charge. -/
theorem C5_hydrogen :
    (∀ (s : List Char) (flag : Bool),
      is_hydrogen (.pstr s) flag = .error () ↔
        hydrogenAlias (extract_integer_charge s).1 = true ∧
        ∃ z, (extract_integer_charge s).2 = some z ∧ z > 1) ∧
    (∀ (arg : PyVal) (flag : Bool) (e : Unit),
      (∀ s, arg ≠ .pstr s) → is_hydrogen arg flag ≠ .error e) := by
  constructor
  · intro s flag
    simp only [is_hydrogen]
    cases hZ : (extract_integer_charge s).2 with
    | none =>
      simp only [hZ, Bool.and_false, Bool.false_eq_true, if_false]
      constructor
      · intro h
        cases h
      · rintro ⟨_, z, hz, _⟩
        cases hz
    | some z =>
      by_cases hA : hydrogenAlias (extract_integer_charge s).1 = true
      · by_cases hz : z > 1
        · simp [hZ, hA, hz]
        · simp only [hZ, hA, Bool.true_and, decide_eq_true_eq]
          rw [if_neg (by simpa using hz)]
          constructor
          · intro h
            cases h
          · rintro ⟨_, z', hz', hgt⟩
            rw [Option.some_inj] at hz'
            exact absurd (hz' ▸ hgt) hz
      · rw [if_neg (by simp [hA])]
        constructor
        · intro h
          cases h
        · rintro ⟨hA', _⟩
          exact absurd hA' hA
  · intro arg flag e hns
    cases arg with
    | pstr s => exact absurd rfl (hns s)
    | pint z => simp [is_hydrogen]
    | pobj => simp [is_hydrogen]

/-- Witness for C5: `H++` extracts charge `+2` on a hydrogen alias and
raises. -/
theorem C5_witness : is_hydrogen (.pstr (chars "H++")) false = .error () :=
  (C5_hydrogen.1 (chars "H++") false).mpr ⟨by decide, 2, by decide, by decide⟩

/-- C6: the stable and unstable listings split the known catalog into the
two stability filters, every known isotope lies in exactly one of them, and
both inherit the catalog's order as sublists (no re-sort). -/
theorem C6_stable_partition :
    ∀ (tbl : IsoTable) (asym : PyVal → Option (List Char)) (e : List Char)
      (K : List (List Char)),
      asym (.pstr e) = some e →
      known_isotopes tbl asym (some (.pstr e)) = some K →
      stable_isotopes tbl asym (some (.pstr e)) false =
        some (K.filter (fun iso => (recOf tbl iso).is_stable = true)) ∧
      stable_isotopes tbl asym (some (.pstr e)) true =
        some (K.filter (fun iso => (recOf tbl iso).is_stable = false)) ∧
      (∀ iso ∈ K,
        (iso ∈ K.filter (fun iso => (recOf tbl iso).is_stable = true) ↔
          iso ∉ K.filter (fun iso => (recOf tbl iso).is_stable = false))) ∧
      (K.filter (fun iso => (recOf tbl iso).is_stable = true)).Sublist K ∧
      (K.filter (fun iso => (recOf tbl iso).is_stable = false)).Sublist K := by
  intro tbl asym e K ha hK
  refine ⟨?_, ?_, ?_, List.filter_sublist K, List.filter_sublist K⟩
  · simp [stable_isotopes, stable_isotopes_for_element, ha, hK]
  · simp [stable_isotopes, stable_isotopes_for_element, ha, hK]
  · intro iso hiso
    simp only [List.mem_filter, hiso, true_and, decide_eq_true_eq, not_and]
    cases hst : (recOf tbl iso).is_stable <;> simp [hst]

/-- Witness for C6 at hydrogen over the modelled table. -/
theorem C6_witness :
    stable_isotopes tblModel asymModel (some (.pstr (chars "H"))) false =
      some (hydrogenKnown.filter
        (fun iso => (recOf tblModel iso).is_stable = true)) ∧
    stable_isotopes tblModel asymModel (some (.pstr (chars "H"))) true =
      some (hydrogenKnown.filter
        (fun iso => (recOf tblModel iso).is_stable = false)) ∧
    (∀ iso ∈ hydrogenKnown,
      (iso ∈ hydrogenKnown.filter
          (fun iso => (recOf tblModel iso).is_stable = true) ↔
        iso ∉ hydrogenKnown.filter
          (fun iso => (recOf tblModel iso).is_stable = false))) ∧
    (hydrogenKnown.filter
      (fun iso => (recOf tblModel iso).is_stable = true)).Sublist hydrogenKnown ∧
    (hydrogenKnown.filter
      (fun iso => (recOf tblModel iso).is_stable = false)).Sublist hydrogenKnown :=
  C6_stable_partition tblModel asymModel (chars "H") hydrogenKnown
    (by decide) (by decide)

theorem known_public_int (tbl : IsoTable) (asym : PyVal → Option (List Char))
    {z : Int} {e : List Char} (h1 : asym (.pint z) = some e)
    (h2 : asym (.pstr e) = some e) :
    known_isotopes tbl asym (some (.pint z)) =
      known_isotopes_for_element tbl asym (.pint z) := by
  simp [known_isotopes, known_isotopes_for_element, h1, h2]

theorem common_public_int (tbl : IsoTable) (asym : PyVal → Option (List Char))
    {z : Int} {e : List Char} (h1 : asym (.pint z) = some e)
    (h2 : asym (.pstr e) = some e) (mco : Bool) :
    common_isotopes tbl asym (some (.pint z)) mco =
      common_isotopes_for_element tbl asym (.pint z) mco := by
  simp [common_isotopes, common_isotopes_for_element, known_isotopes,
    known_isotopes_for_element, h1, h2]

theorem stable_public_int (tbl : IsoTable) (asym : PyVal → Option (List Char))
    {z : Int} {e : List Char} (h1 : asym (.pint z) = some e)
    (h2 : asym (.pstr e) = some e) (unst : Bool) :
    stable_isotopes tbl asym (some (.pint z)) unst =
      stable_isotopes_for_element tbl asym (.pint z) (!unst) := by
  simp [stable_isotopes, stable_isotopes_for_element, known_isotopes,
    known_isotopes_for_element, h1, h2]

/-- C7: with no element argument, each of the three listings equals the
concatenation, over atomic numbers 1..118 in increasing order, of its
per-element results — provided the resolver maps each atomic number to a
canonical symbol that resolves to itself (as the real `atomic_symbol`
does). -/
theorem C7_global_concatenation :
    ∀ (tbl : IsoTable) (asym : PyVal → Option (List Char)),
      (∀ z ∈ List.range' 1 118,
        ∃ e, asym (.pint (Int.ofNat z)) = some e ∧ asym (.pstr e) = some e) →
      known_isotopes tbl asym none =
        optJoin ((List.range' 1 118).map
          (fun z => known_isotopes tbl asym (some (.pint (Int.ofNat z))))) ∧
      (∀ mco, common_isotopes tbl asym none mco =
        optJoin ((List.range' 1 118).map
          (fun z => common_isotopes tbl asym (some (.pint (Int.ofNat z))) mco))) ∧
      (∀ unst, stable_isotopes tbl asym none unst =
        optJoin ((List.range' 1 118).map
          (fun z => stable_isotopes tbl asym (some (.pint (Int.ofNat z))) unst))) := by
  intro tbl asym H
  refine ⟨?_, ?_, ?_⟩
  · rw [show known_isotopes tbl asym none =
      optJoin ((List.range' 1 118).map
        (fun z => known_isotopes_for_element tbl asym (.pint (Int.ofNat z)))) from rfl]
    congr 1
    refine List.map_congr_left ?_
    intro z hz
    obtain ⟨e, h1, h2⟩ := H z hz
    exact (known_public_int tbl asym h1 h2).symm
  · intro mco
    rw [show common_isotopes tbl asym none mco =
      optJoin ((List.range' 1 118).map
        (fun z => common_isotopes_for_element tbl asym (.pint (Int.ofNat z)) mco)) from rfl]
    congr 1
    refine List.map_congr_left ?_
    intro z hz
    obtain ⟨e, h1, h2⟩ := H z hz
    exact (common_public_int tbl asym h1 h2 mco).symm
  · intro unst
    rw [show stable_isotopes tbl asym none unst =
      optJoin ((List.range' 1 118).map
        (fun z => stable_isotopes_for_element tbl asym (.pint (Int.ofNat z)) (!unst))) from rfl]
    congr 1
    refine List.map_congr_left ?_
    intro z hz
    obtain ⟨e, h1, h2⟩ := H z hz
    exact (stable_public_int tbl asym h1 h2 unst).symm

set_option maxRecDepth 4000 in
theorem asymModel_dec :
    ∀ z ∈ List.range' 1 118,
      (asymModel (.pint (Int.ofNat z))).isSome = true ∧
      asymModel (.pstr ((asymModel (.pint (Int.ofNat z))).getD [])) =
        asymModel (.pint (Int.ofNat z)) := by
  decide

theorem asymModel_canonical :
    ∀ z ∈ List.range' 1 118,
      ∃ e, asymModel (.pint (Int.ofNat z)) = some e ∧
        asymModel (.pstr e) = some e := by
  intro z hz
  obtain ⟨h1, h2⟩ := asymModel_dec z hz
  cases hA : asymModel (.pint (Int.ofNat z)) with
  | none => rw [hA] at h1; cases h1
  | some e =>
    refine ⟨e, rfl, ?_⟩
    rw [hA] at h2
    simpa using h2

/-- Witness for C7 over the modelled tables. -/
theorem C7_witness :
    known_isotopes tblModel asymModel none =
      optJoin ((List.range' 1 118).map
        (fun z => known_isotopes tblModel asymModel (some (.pint (Int.ofNat z))))) :=
  (C7_global_concatenation tblModel asymModel asymModel_canonical).1

theorem rankKeys_rev_head_max (f : List Char → Nat) (l : List (List Char))
    {h : List Char} {t : List (List Char)}
    (he : (rankKeys f l).reverse = h :: t) : ∀ x ∈ h :: t, f x ≤ f h := by
  have hp := rankKeys_rev_pairwise f l
  rw [he, List.pairwise_cons] at hp
  intro x hx
  rcases List.mem_cons.mp hx with rfl | hx
  · exact le_refl _
  · rcases hp.1 x hx with hlt | ⟨heq, _⟩
    · exact le_of_lt hlt
    · exact le_of_eq heq

/-- C8: with `most_common_only` the result has length at most one; a
singleton result is a member of the untruncated list of maximal abundance;
and on untruncated results of length at most one the truncation is a
no-op. -/
theorem C8_most_common :
    ∀ (tbl : IsoTable) (asym : PyVal → Option (List Char)) (arg : PyVal),
      (∀ M, common_isotopes_for_element tbl asym arg true = some M →
        M.length ≤ 1) ∧
      (∀ h L, common_isotopes_for_element tbl asym arg true = some [h] →
        common_isotopes_for_element tbl asym arg false = some L →
        h ∈ L ∧ ∀ iso ∈ L, abundOf tbl iso ≤ abundOf tbl h) ∧
      (∀ L, common_isotopes_for_element tbl asym arg false = some L →
        L.length ≤ 1 →
        common_isotopes_for_element tbl asym arg true = some L) := by
  intro tbl asym arg
  cases hK : known_isotopes tbl asym (some arg) with
  | none =>
    refine ⟨?_, ?_, ?_⟩
    · intro M hM
      rw [common_isotopes_for_element, hK] at hM
      cases hM
    · intro h L hM hL
      rw [common_isotopes_for_element, hK] at hM
      cases hM
    · intro L hL
      rw [common_isotopes_for_element, hK] at hL
      cases hL
  | some K =>
    have hfalse : common_isotopes_for_element tbl asym arg false =
        some ((rankKeys (abundOf tbl)
          (K.filter (fun iso => (recOf tbl iso).isotopic_abundance.isSome))).reverse) := by
      simp [common_isotopes_for_element, hK]
    have htrue : common_isotopes_for_element tbl asym arg true =
        some (if ((rankKeys (abundOf tbl)
            (K.filter (fun iso => (recOf tbl iso).isotopic_abundance.isSome))).reverse).length > 1 then
          ((rankKeys (abundOf tbl)
            (K.filter (fun iso => (recOf tbl iso).isotopic_abundance.isSome))).reverse).take 1
        else
          (rankKeys (abundOf tbl)
            (K.filter (fun iso => (recOf tbl iso).isotopic_abundance.isSome))).reverse) := by
      simp [common_isotopes_for_element, hK]
    refine ⟨?_, ?_, ?_⟩
    · intro M hM
      rw [htrue, Option.some_inj] at hM
      subst hM
      split
      · simp
      · omega
    · intro h L hM hL
      rw [htrue, Option.some_inj] at hM
      rw [hfalse, Option.some_inj] at hL
      subst hL
      split at hM
      · cases hrev : (rankKeys (abundOf tbl)
            (K.filter (fun iso => (recOf tbl iso).isotopic_abundance.isSome))).reverse with
        | nil => rw [hrev] at hM; cases hM
        | cons a t =>
          rw [hrev] at hM
          simp only [List.take_succ_cons, List.take_zero] at hM
          injection hM with ha _
          subst ha
          exact ⟨List.mem_cons_self _ _, rankKeys_rev_head_max (abundOf tbl) _ hrev⟩
      · rw [hM]
        refine ⟨List.mem_cons_self _ _, ?_⟩
        intro iso hiso
        rcases List.mem_cons.mp hiso with rfl | hiso
        · exact le_refl _
        · cases hiso
    · intro L hL hlen
      rw [hfalse, Option.some_inj] at hL
      subst hL
      rw [htrue]
      rw [if_neg (by omega)]

/-- Witness for C8 at iron over the modelled table: the truncated listing is
the single most abundant isotope. -/
theorem C8_witness :
    chars "Fe-56" ∈
        [chars "Fe-56", chars "Fe-54", chars "Fe-57", chars "Fe-58"] ∧
      ∀ iso ∈ [chars "Fe-56", chars "Fe-54", chars "Fe-57", chars "Fe-58"],
        abundOf tblModel iso ≤ abundOf tblModel (chars "Fe-56") :=
  (C8_most_common tblModel asymModel (.pstr (chars "Fe"))).2.1
    (chars "Fe-56")
    [chars "Fe-56", chars "Fe-54", chars "Fe-57", chars "Fe-58"]
    (by decide) (by decide)

/-- C9: every periodic-placement lookup rejects a non-string non-integer
argument with a type error before any resolution is attempted (the result
does not depend on the resolver), and on accepted arguments returns the
resolved symbol's field read from the static element table. -/
theorem C9_periodic_type_check :
    ∀ (elems : ElemTable) (asym : PyVal → Option (List Char)),
      (periodic_table_period elems asym .pobj = .error .typeErr ∧
        periodic_table_group elems asym .pobj = .error .typeErr ∧
        periodic_table_block elems asym .pobj = .error .typeErr ∧
        periodic_table_category elems asym .pobj = .error .typeErr) ∧
      (∀ (arg : PyVal) (sym : List Char), arg ≠ .pobj → asym arg = some sym →
        periodic_table_period elems asym arg = .ok (elemRecOf elems sym).period ∧
        periodic_table_group elems asym arg = .ok (elemRecOf elems sym).group ∧
        periodic_table_block elems asym arg = .ok (elemRecOf elems sym).block ∧
        periodic_table_category elems asym arg =
          .ok (elemRecOf elems sym).category) := by
  intro elems asym
  constructor
  · exact ⟨rfl, rfl, rfl, rfl⟩
  · intro arg sym hne hsym
    cases arg with
    | pobj => exact absurd rfl hne
    | pstr s =>
      simp [periodic_table_period, periodic_table_group, periodic_table_block,
        periodic_table_category, hsym]
    | pint z =>
      simp [periodic_table_period, periodic_table_group, periodic_table_block,
        periodic_table_category, hsym]

/-- Witness for C9 at gold over the modelled element table. -/
theorem C9_witness :
    periodic_table_period elemsModel asymModel (.pstr (chars "Au")) =
      .ok (elemRecOf elemsModel (chars "Au")).period ∧
    periodic_table_group elemsModel asymModel (.pstr (chars "Au")) =
      .ok (elemRecOf elemsModel (chars "Au")).group ∧
    periodic_table_block elemsModel asymModel (.pstr (chars "Au")) =
      .ok (elemRecOf elemsModel (chars "Au")).block ∧
    periodic_table_category elemsModel asymModel (.pstr (chars "Au")) =
      .ok (elemRecOf elemsModel (chars "Au")).category :=
  (C9_periodic_type_check elemsModel asymModel).2 (.pstr (chars "Au"))
    (chars "Au") (by decide) (by decide)

/-- A constant resolver used to witness the proton recognizer. -/
def constH1 : PyVal → Option Nat → Option (List Char) :=
  fun _ _ => some (chars "H-1")

/-- C10: the proton recognizer returns `false` whenever the explicit charge
parameter and the embedded charge annotation are both present or both
absent, and returns `true` only when exactly one is supplied, that charge is
1, and the argument resolves to the isotope `H-1`. -/
theorem C10_proton_charge_sources :
    ∀ (isoSym : PyVal → Option Nat → Option (List Char)) (arg : PyVal)
      (Z : Option Int) (mn : Option Nat),
      (Z.isNone = (extractOfVal arg).isNone → is_proton isoSym arg Z mn = false) ∧
      (is_proton isoSym arg Z mn = true →
        Z.isNone ≠ (extractOfVal arg).isNone ∧
        (match Z with | some z => z | none => (extractOfVal arg).getD 0) = 1 ∧
        isoSym arg mn = some (chars "H-1")) := by
  intro isoSym arg Z mn
  constructor
  · intro h
    simp [is_proton, h]
  · intro h
    simp only [is_proton] at h
    by_cases he : Z.isNone = (extractOfVal arg).isNone
    · rw [if_pos he] at h
      cases h
    · rw [if_neg he] at h
      refine ⟨he, ?_⟩
      cases hI : isoSym arg mn with
      | none =>
        rw [hI] at h
        simp at h
      | some iso =>
        rw [hI] at h
        simp only [Bool.and_eq_true, decide_eq_true_eq] at h
        exact ⟨h.2, congrArg some h.1⟩

/-- Witness for C10: a string carrying its own charge annotation with no
explicit charge parameter. -/
theorem C10_witness :
    (none : Option Int).isNone ≠ (extractOfVal (.pstr (chars "H-1 1+"))).isNone ∧
    (match (none : Option Int) with
      | some z => z
      | none => (extractOfVal (.pstr (chars "H-1 1+"))).getD 0) = 1 ∧
    constH1 (.pstr (chars "H-1 1+")) none = some (chars "H-1") :=
  (C10_proton_charge_sources constH1 (.pstr (chars "H-1 1+")) none none).2
    (by decide)

/-- C1: for every valid element identifier, `known_isotopes` returns a list
sorted strictly ascending by mass number (given that the catalog's mass
numbers are pairwise distinct, as they are for every element of the real
table), and for hydrogen the list is exactly
`["H-1", "D", "T", "H-4", "H-5", "H-6", "H-7"]`, whose first three entries
are `"H-1"`, `"D"`, `"T"`. -/
theorem C1_known_isotopes_sorted :
    (∀ (tbl : IsoTable) (asym : PyVal → Option (List Char)) (arg : PyVal)
        (L : List (List Char)),
      known_isotopes_for_element tbl asym arg = some L →
      (L.map massNumberKey).Nodup →
      L.Pairwise (fun a b => massNumberKey a < massNumberKey b)) ∧
    known_isotopes_for_element tblModel asymModel (.pstr (chars "H")) =
      some hydrogenKnown := by
  constructor
  · intro tbl asym arg L hL hnd
    unfold known_isotopes_for_element at hL
    cases hA : asym arg with
    | none => rw [hA] at hL; cases hL
    | some element =>
      rw [hA] at hL
      simp only [Option.map_some'] at hL
      cases hL
      exact rankKeys_strict massNumberKey _ hnd
  · rfl

/-- Witness for C1 at hydrogen: the hydrogen catalog is strictly ascending in
mass number. -/
theorem C1_witness :
    hydrogenKnown.Pairwise (fun a b => massNumberKey a < massNumberKey b) :=
  C1_known_isotopes_sorted.1 tblModel asymModel (.pstr (chars "H")) hydrogenKnown
    C1_known_isotopes_sorted.2 (by decide)

/-- C2 (amended): `common_isotopes` retains exactly the isotopes of the known
catalog whose record has an abundance field, in an order that is descending
in the `(abundance, isotope-key)` pair order — abundance descending, ties
among equal abundances in descending lexicographic key order (the ascending
pair sort is reversed). -/
theorem C2_common_ranking :
    ∀ (tbl : IsoTable) (asym : PyVal → Option (List Char)) (arg : PyVal)
      (K L : List (List Char)),
      known_isotopes tbl asym (some arg) = some K →
      common_isotopes_for_element tbl asym arg false = some L →
      L.Perm (K.filter (fun iso => (recOf tbl iso).isotopic_abundance.isSome)) ∧
      L.Pairwise (fun a b => pLe (abundOf tbl b, b) (abundOf tbl a, a)) := by
  intro tbl asym arg K L hK hL
  unfold common_isotopes_for_element at hL
  rw [hK] at hL
  simp only [Option.map_some', Bool.false_and, if_neg (by simp : ¬(false = true)),
    Option.some_inj] at hL
  cases hL
  constructor
  · exact (List.reverse_perm _).trans (rankKeys_perm _ _)
  · exact rankKeys_rev_pairwise _ _

/-- Witness for C2's amended theorem at iron over the modelled table. -/
theorem C2_witness :
    [chars "Fe-56", chars "Fe-54", chars "Fe-57", chars "Fe-58"].Pairwise
      (fun a b => pLe (abundOf tblModel b, b) (abundOf tblModel a, a)) :=
  (C2_common_ranking tblModel asymModel (.pstr (chars "Fe"))
    [chars "Fe-54", chars "Fe-55", chars "Fe-56", chars "Fe-57", chars "Fe-58"]
    [chars "Fe-56", chars "Fe-54", chars "Fe-57", chars "Fe-58"]
    (by decide) (by decide)).2

/-- Counterexample to C2 as stated: with two retained isotopes of equal
abundance, the result lists the larger mass number first — the reversal
does not preserve the ascending-mass-number order of the input catalog
among equal abundances. -/
theorem C2_counterexample :
    common_isotopes_for_element tblTie asymModel (.pstr (chars "He")) false =
      some [chars "He-4", chars "He-3"] ∧
    abundOf tblTie (chars "He-3") = abundOf tblTie (chars "He-4") ∧
    massNumberKey (chars "He-3") < massNumberKey (chars "He-4") :=
  ⟨by decide, by decide, by decide⟩
